import Mathlib

/-!
Verification of the menu voice agent core (src/app.py): the menu resolution
engine (`search_items`) and the order ledger (`get_or_create_session`,
`calculate_item_price`, `add_to_order`, `remove_from_order`,
`get_order_summary`, `clear_order`), shallowly embedded over exact rational
arithmetic.  Python dicts are modelled as insertion-ordered association
lists with unique keys, `uuid.uuid4()` as a fresh-identifier counter, and
`datetime.now().isoformat()` as an opaque string passed by the caller.
-/

namespace MenuAgent

/-- One modifier option of a group (convert_menu_data.py: `id`, `name`,
`price`). -/
structure ModifierOption where
  id : String
  name : String
  price : ℚ
deriving Repr, DecidableEq

/-- One modifier group (convert_menu_data.py: `group_name`, `options`).
The optional `max_selections` field is never read by app.py and is
omitted. -/
structure ModifierGroup where
  group_name : String
  options : List ModifierOption
deriving Repr, DecidableEq

/-- An item's modifiers, split into required and optional group lists. -/
structure ItemModifiers where
  required : List ModifierGroup
  optional : List ModifierGroup
deriving Repr, DecidableEq

/-- A catalog item as produced by convert_menu_data.py and consumed by
app.py. -/
structure CatalogItem where
  id : String
  name : String
  category : String
  base_price : ℚ
  descr : String
  available : Bool
  modifiers : ItemModifiers
deriving Repr, DecidableEq

/-- The loaded `menu_data['items']` dict: an insertion-ordered association
list from item identifier to item. -/
structure MenuData where
  items : List (String × CatalogItem)
deriving Repr, DecidableEq

/-- `menu_data['items'].get(item_id)`. -/
def lookupItem (menu : MenuData) (item_id : String) : Option CatalogItem :=
  menu.items.lookup item_id

/-- Python's `round` on rationals: round half to even (banker's rounding),
as Python's built-in `round` does. -/
def pyRound (q : ℚ) : ℤ :=
  let f := ⌊q⌋
  let r := q - f
  if r < 1/2 then f
  else if 1/2 < r then f + 1
  else if 2 ∣ f then f else f + 1

/-- `round(x, 2)` over exact decimal arithmetic. -/
def round2 (q : ℚ) : ℚ :=
  (pyRound (q * 100) : ℚ) / 100

/-- app.py `calculate_item_price`: base price plus, for each requested
modifier identifier, a scan over `required + optional` groups; inside each
group the first option whose id matches contributes its price and the
`break` leaves only the inner option loop, so the scan continues with the
next group. -/
def calculate_item_price (menu : MenuData) (item_id : String)
    (modifier_ids : List String) : ℚ :=
  match lookupItem menu item_id with
  | none => 0
  | some item =>
    let total := modifier_ids.foldl (fun total modifier_id =>
      (item.modifiers.required ++ item.modifiers.optional).foldl
        (fun total group =>
          match group.options.find? (fun o => o.id == modifier_id) with
          | some o => total + o.price
          | none => total)
        total)
      item.base_price
    round2 total

/-- app.py `similarity_score`: lowercases both strings and applies
`difflib.SequenceMatcher(None, a, b).ratio()`.  The stdlib ratio is an
external collaborator and is passed in as the parameter `ratio`. -/
def similarity_score (ratio : String → String → ℚ) (str1 str2 : String) : ℚ :=
  ratio str1.toLower str2.toLower

/-- One search result record built by `search_items`. -/
structure SearchResult where
  id : String
  name : String
  category : String
  price : ℚ
  match_type : String
  score : ℚ
deriving Repr, DecidableEq

/-- Python's substring test `needle in hay` on strings: the needle's
character sequence occurs contiguously in the hay's. -/
def strContains (hay needle : String) : Bool :=
  decide (needle.toList <:+: hay.toList)

/-- The per-item body of the loop in app.py `search_items`: each catalog
entry appends at most one result, decided by the exact / contains / fuzzy
`if`/`elif`/`else` chain. -/
def classifyItem (ratio : String → String → ℚ) (query : String)
    (threshold : ℚ) (item_id : String) (item : CatalogItem) :
    Option SearchResult :=
  let query_lower := query.toLower
  let item_name_lower := item.name.toLower
  if query_lower = item_name_lower then
    some ⟨item_id, item.name, item.category, item.base_price, "exact", 1⟩
  else if strContains item_name_lower query_lower
      || strContains query_lower item_name_lower then
    some ⟨item_id, item.name, item.category, item.base_price, "partial", 9/10⟩
  else
    let score := similarity_score ratio query item.name
    if threshold ≤ score then
      some ⟨item_id, item.name, item.category, item.base_price, "fuzzy", score⟩
    else none

/-- Descending-score order used by `results.sort(key=lambda x: x['score'],
reverse=True)`. -/
def scoreGE (a b : SearchResult) : Prop := b.score ≤ a.score

instance : DecidableRel scoreGE :=
  fun a b => inferInstanceAs (Decidable (b.score ≤ a.score))

instance : IsTotal SearchResult scoreGE :=
  ⟨fun a b => le_total b.score a.score⟩

instance : IsTrans SearchResult scoreGE :=
  ⟨fun _ _ _ h1 h2 => le_trans h2 h1⟩

/-- app.py `search_items`: one candidate per catalog entry via
`classifyItem`, then a stable descending sort by score.  Python's
`list.sort` is stable and a stable sort for a total preorder has a unique
result, so insertion sort with `scoreGE` is the exact model. -/
def search_items (ratio : String → String → ℚ) (menu : MenuData)
    (query : String) (threshold : ℚ) : List SearchResult :=
  let results := menu.items.filterMap
    (fun p => classifyItem ratio query threshold p.1 p.2)
  List.insertionSort scoreGE results

/-- One order line as built by app.py `add_to_order`. -/
structure OrderItem where
  item_id : String
  item_name : String
  base_price : ℚ
  modifier_ids : List String
  quantity : ℤ
  item_total : ℚ
  subtotal : ℚ
deriving Repr, DecidableEq

/-- One session's cart: `{'items': [...], 'total': ..., 'created_at': ...}`. -/
structure Order where
  items : List OrderItem
  total : ℚ
  created_at : String
deriving Repr, DecidableEq

/-- The global `orders` dict plus the `uuid.uuid4()` supply, modelled as a
counter of fresh identifiers (uuid4 collisions are assumed absent, as the
Python code does). -/
structure Store where
  orders : List (String × Order)
  nextUuid : ℕ
deriving Repr, DecidableEq

/-- The empty store at process start. -/
def initStore : Store := ⟨[], 0⟩

/-- The identifier minted for the n-th `uuid.uuid4()` call. -/
def freshUuid (n : ℕ) : String := "uuid-" ++ toString n

/-- Python truthiness of an optional string (`None` and `''` are falsy). -/
def truthy : Option String → Bool
  | none => false
  | some s => s != ""

/-- Python dict assignment `d[k] = v`: overwrite in place if the key
exists, else append (insertion order). -/
def dictSet (l : List (String × Order)) (k : String) (v : Order) :
    List (String × Order) :=
  if (l.lookup k).isSome then
    l.map (fun p => if p.1 = k then (k, v) else p)
  else l ++ [(k, v)]

/-- app.py `get_or_create_session`: return the id if truthy and known,
else mint a fresh uuid and store an empty cart under it. -/
def get_or_create_session (st : Store) (session_id : Option String)
    (now : String) : String × Store :=
  match session_id with
  | some sid =>
    if sid != "" && (st.orders.lookup sid).isSome then (sid, st)
    else
      let nid := freshUuid st.nextUuid
      (nid, ⟨dictSet st.orders nid ⟨[], 0, now⟩, st.nextUuid + 1⟩)
  | none =>
    let nid := freshUuid st.nextUuid
    (nid, ⟨dictSet st.orders nid ⟨[], 0, now⟩, st.nextUuid + 1⟩)

/-- The two error shapes the endpoints return: HTTP 400 validation errors
and HTTP 404 not-found errors. -/
inductive ApiError where
  | validation (msg : String)
  | notFound (msg : String)
deriving Repr, DecidableEq

/-- Whether an `add_to_order` response is a 404 not-found error. -/
def isNotFoundErr {α : Type} : Except ApiError α → Bool
  | .error (.notFound _) => true
  | _ => false

/-- Successful `add_to_order` response payload. -/
structure AddResult where
  session_id : String
  order_item : OrderItem
  order_total : ℚ
deriving Repr, DecidableEq

/-- app.py `add_to_order`: reject a missing/empty item id (400), then an
unknown item id (404) — both before `get_or_create_session` runs — then
price the line, append it to the session's cart and fold its subtotal into
the running total with `round(..., 2)`. -/
def add_to_order (menu : MenuData) (st : Store) (session_id : Option String)
    (item_id : String) (modifier_ids : List String) (quantity : ℤ)
    (now : String) : Except ApiError AddResult × Store :=
  if item_id = "" then
    (.error (.validation "Item ID is required"), st)
  else
    match lookupItem menu item_id with
    | none => (.error (.notFound "Item not found"), st)
    | some item =>
      let sst := get_or_create_session st session_id now
      let sid := sst.1
      let st1 := sst.2
      let item_price := calculate_item_price menu item_id modifier_ids
      let subtotal := item_price * (quantity : ℚ)
      let order_item : OrderItem :=
        ⟨item_id, item.name, item.base_price, modifier_ids, quantity,
          item_price, subtotal⟩
      -- `orders[session_id]` cannot fail here: `get_or_create_session`
      -- just guaranteed the key; the default is never used.
      let cur : Order := (st1.orders.lookup sid).getD ⟨[], 0, now⟩
      let newOrder : Order :=
        { cur with items := cur.items ++ [order_item],
                   total := round2 (cur.total + subtotal) }
      let st2 : Store := { st1 with orders := dictSet st1.orders sid newOrder }
      (.ok ⟨sid, order_item, newOrder.total⟩, st2)

/-- Successful `remove_from_order` response payload. -/
structure RemoveResult where
  removed_item : OrderItem
  order_total : ℚ
deriving Repr, DecidableEq

/-- app.py `remove_from_order`: 400 on falsy/unknown session, missing or
negative index, or index past the end; otherwise pop the line at the index
and subtract its subtotal from the running total with `round(..., 2)`. -/
def remove_from_order (st : Store) (session_id : Option String)
    (item_index : Option ℤ) : Except ApiError RemoveResult × Store :=
  if !truthy session_id then (.error (.validation "Invalid session"), st)
  else
    match session_id with
    | none => (.error (.validation "Invalid session"), st)
    | some sid =>
      match st.orders.lookup sid with
      | none => (.error (.validation "Invalid session"), st)
      | some order =>
        match item_index with
        | none => (.error (.validation "Valid item index is required"), st)
        | some idx =>
          if idx < 0 then
            (.error (.validation "Valid item index is required"), st)
          else if (order.items.length : ℤ) ≤ idx then
            (.error (.validation "Item index out of range"), st)
          else
            match order.items[idx.toNat]? with
            | none => (.error (.validation "Item index out of range"), st)
            | some removed =>
              let newOrder : Order :=
                { order with
                    items := order.items.take idx.toNat
                      ++ order.items.drop (idx.toNat + 1),
                    total := round2 (order.total - removed.subtotal) }
              (.ok ⟨removed, newOrder.total⟩,
                { st with orders := dictSet st.orders sid newOrder })

/-- The cart view returned by app.py `get_order_summary`; `created_at` is
absent (`none`) in the empty view returned for an unknown session. -/
structure OrderSummary where
  items : List OrderItem
  total : ℚ
  item_count : ℕ
  created_at : Option String
deriving Repr, DecidableEq

/-- The empty-cart view (`items: [], total: 0.0, item_count: 0`). -/
def emptySummary : OrderSummary := ⟨[], 0, 0, none⟩

/-- app.py `get_order_summary`: falsy or unknown session id gives the
empty view (success, not an error); otherwise the session's cart. -/
def get_order_summary (st : Store) (session_id : Option String) :
    OrderSummary :=
  match session_id with
  | none => emptySummary
  | some sid =>
    if sid = "" then emptySummary
    else
      match st.orders.lookup sid with
      | none => emptySummary
      | some o => ⟨o.items, o.total, o.items.length, some o.created_at⟩

/-- `clear_order`'s response body: always `success: true`. -/
structure ClearResult where
  success : Bool
  message : String
deriving Repr, DecidableEq

/-- app.py `clear_order`: delete the session's entry if the id is truthy
and present (`del orders[session_id]`), and report success either way. -/
def clear_order (st : Store) (session_id : Option String) :
    ClearResult × Store :=
  match session_id with
  | some sid =>
    if sid != "" && (st.orders.lookup sid).isSome then
      (⟨true, "Order cleared"⟩,
        { st with orders := st.orders.eraseP (fun p => p.1 == sid) })
    else (⟨true, "Order cleared"⟩, st)
  | none => (⟨true, "Order cleared"⟩, st)

/-- A mutating ledger call, for stating reachability invariants. -/
inductive Op where
  | add (session_id : Option String) (item_id : String)
      (modifier_ids : List String) (quantity : ℤ) (now : String)
  | remove (session_id : Option String) (item_index : Option ℤ)
  | clear (session_id : Option String)
deriving Repr

/-- Apply one ledger call to the store, for a fixed catalog. -/
def applyOp (menu : MenuData) (st : Store) : Op → Store
  | .add sid iid mids q now => (add_to_order menu st sid iid mids q now).2
  | .remove sid idx => (remove_from_order st sid idx).2
  | .clear sid => (clear_order st sid).2

/-- Run a sequence of ledger calls from the fresh store. -/
def runOps (menu : MenuData) (ops : List Op) : Store :=
  ops.foldl (applyOp menu) initStore

/-! ### Exact-cent arithmetic and rounding -/

/-- A rational is a whole number of cents. -/
def centsQ (q : ℚ) : Prop := ∃ k : ℤ, q = k / 100

theorem centsQ_zero : centsQ 0 := ⟨0, by norm_num⟩

theorem centsQ_add {a b : ℚ} (ha : centsQ a) (hb : centsQ b) :
    centsQ (a + b) := by
  obtain ⟨k, hk⟩ := ha
  obtain ⟨m, hm⟩ := hb
  exact ⟨k + m, by rw [hk, hm]; push_cast; ring⟩

theorem centsQ_sub {a b : ℚ} (ha : centsQ a) (hb : centsQ b) :
    centsQ (a - b) := by
  obtain ⟨k, hk⟩ := ha
  obtain ⟨m, hm⟩ := hb
  exact ⟨k - m, by rw [hk, hm]; push_cast; ring⟩

theorem centsQ_intMul {a : ℚ} (n : ℤ) (ha : centsQ a) :
    centsQ (a * (n : ℚ)) := by
  obtain ⟨k, hk⟩ := ha
  exact ⟨k * n, by rw [hk]; push_cast; ring⟩

theorem pyRound_intCast (k : ℤ) : pyRound (k : ℚ) = k := by
  unfold pyRound
  simp only [Int.floor_intCast]
  norm_num

theorem round2_eq_self {q : ℚ} (h : centsQ q) : round2 q = q := by
  obtain ⟨k, hk⟩ := h
  have h100 : q * 100 = (k : ℚ) := by rw [hk]; field_simp
  rw [round2, h100, pyRound_intCast, hk]

theorem centsQ_round2 (q : ℚ) : centsQ (round2 q) := ⟨pyRound (q * 100), rfl⟩

theorem centsQ_sum {l : List ℚ} (h : ∀ x ∈ l, centsQ x) : centsQ l.sum := by
  induction l with
  | nil => simpa using centsQ_zero
  | cons a t ih =>
    rw [List.sum_cons]
    exact centsQ_add (h a (List.mem_cons_self a t))
      (ih fun x hx => h x (List.mem_cons_of_mem a hx))

theorem centsQ_calculate_item_price (menu : MenuData) (item_id : String)
    (modifier_ids : List String) :
    centsQ (calculate_item_price menu item_id modifier_ids) := by
  unfold calculate_item_price
  cases lookupItem menu item_id with
  | none => exact centsQ_zero
  | some item => exact centsQ_round2 _

/-! ### The running-total invariant -/

/-- Per-cart invariant: every line's subtotal is a whole number of cents
and the running total is exactly the sum of the lines' subtotals. -/
def OrderInv (o : Order) : Prop :=
  (∀ oi ∈ o.items, centsQ oi.subtotal) ∧
  o.total = (o.items.map OrderItem.subtotal).sum

/-- Store-wide invariant. -/
def StoreInv (st : Store) : Prop := ∀ p ∈ st.orders, OrderInv p.2

theorem lookup_mem {l : List (String × Order)} {k : String} {v : Order}
    (h : l.lookup k = some v) : (k, v) ∈ l := by
  induction l with
  | nil => simp [List.lookup] at h
  | cons p t ih =>
    rw [List.lookup] at h
    by_cases hk : k == p.1
    · simp only [hk, if_pos] at h
      have hv : p.2 = v := by simpa using h
      have hk1 : k = p.1 := by simpa using hk
      have : (k, v) = p := by
        rw [hk1, ← hv]
      rw [this]
      exact List.mem_cons_self _ _
    · simp only [hk] at h
      exact List.mem_cons_of_mem _ (ih h)

theorem mem_dictSet {l : List (String × Order)} {k : String} {v : Order}
    {p : String × Order} (h : p ∈ dictSet l k v) :
    p = (k, v) ∨ p ∈ l := by
  unfold dictSet at h
  by_cases hs : (l.lookup k).isSome
  · rw [if_pos hs] at h
    obtain ⟨q, hq, hpq⟩ := List.mem_map.mp h
    by_cases hqk : q.1 = k
    · left
      rw [if_pos hqk] at hpq
      exact hpq.symm
    · right
      rw [if_neg hqk] at hpq
      exact hpq ▸ hq
  · rw [if_neg hs] at h
    rcases List.mem_append.mp h with h1 | h1
    · exact Or.inr h1
    · exact Or.inl (by simpa using h1)

theorem OrderInv_empty (now : String) : OrderInv ⟨[], 0, now⟩ := by
  constructor
  · intro oi hoi
    simp at hoi
  · simp

theorem StoreInv_get_or_create {st : Store} (h : StoreInv st)
    (session_id : Option String) (now : String) :
    StoreInv (get_or_create_session st session_id now).2 := by
  unfold get_or_create_session
  cases session_id with
  | none =>
    intro p hp
    rcases mem_dictSet hp with rfl | hp1
    · exact OrderInv_empty now
    · exact h p hp1
  | some sid =>
    by_cases hc : (sid != "" && (st.orders.lookup sid).isSome) = true
    · simpa [hc] using h
    · simp only [Bool.not_eq_true] at hc
      intro p hp
      simp only [hc, Bool.false_eq_true, if_false] at hp
      rcases mem_dictSet hp with rfl | hp1
      · exact OrderInv_empty now
      · exact h p hp1

theorem StoreInv_set {st : Store} {sid : String} {v : Order}
    (h : StoreInv st) (hv : OrderInv v) :
    StoreInv { st with orders := dictSet st.orders sid v } := by
  intro p hp
  rcases mem_dictSet hp with rfl | hp1
  · exact hv
  · exact h p hp1

theorem OrderInv_lookup_getD {st : Store} (h : StoreInv st) (sid : String)
    (now : String) :
    OrderInv ((st.orders.lookup sid).getD ⟨[], 0, now⟩) := by
  cases hl : st.orders.lookup sid with
  | none => exact OrderInv_empty now
  | some o => exact h (sid, o) (lookup_mem hl)

theorem centsQ_order_total {o : Order} (h : OrderInv o) : centsQ o.total := by
  obtain ⟨hc, ht⟩ := h
  rw [ht]
  refine centsQ_sum fun x hx => ?_
  obtain ⟨oi, hoi, rfl⟩ := List.mem_map.mp hx
  exact hc oi hoi

theorem OrderInv_add_line {cur : Order} (h : OrderInv cur) (oi : OrderItem)
    (hoi : centsQ oi.subtotal) :
    OrderInv { cur with items := cur.items ++ [oi],
                        total := round2 (cur.total + oi.subtotal) } := by
  obtain ⟨hc, ht⟩ := h
  constructor
  · intro x hx
    rcases List.mem_append.mp hx with hx1 | hx1
    · exact hc x hx1
    · rw [List.mem_singleton.mp hx1]
      exact hoi
  · have hcur : centsQ cur.total := centsQ_order_total ⟨hc, ht⟩
    rw [round2_eq_self (centsQ_add hcur hoi)]
    show cur.total + oi.subtotal = ((cur.items ++ [oi]).map OrderItem.subtotal).sum
    rw [ht, List.map_append, List.sum_append]
    simp

theorem StoreInv_add (menu : MenuData) {st : Store} (h : StoreInv st)
    (session_id : Option String) (item_id : String)
    (modifier_ids : List String) (quantity : ℤ) (now : String) :
    StoreInv (add_to_order menu st session_id item_id modifier_ids
      quantity now).2 := by
  unfold add_to_order
  by_cases h0 : item_id = ""
  · simpa [h0] using h
  · rw [if_neg h0]
    cases hl : lookupItem menu item_id with
    | none => exact h
    | some item =>
      have h1 : StoreInv (get_or_create_session st session_id now).2 :=
        StoreInv_get_or_create h session_id now
      exact StoreInv_set h1
        (OrderInv_add_line (OrderInv_lookup_getD h1 _ now) _
          (centsQ_intMul quantity
            (centsQ_calculate_item_price menu item_id modifier_ids)))

theorem sum_eq_take_getElem_drop (l : List ℚ) (n : ℕ) (h : n < l.length) :
    l.sum = (l.take n).sum + (l.get ⟨n, h⟩ + (l.drop (n + 1)).sum) := by
  conv_lhs => rw [← List.take_append_drop n l]
  rw [List.sum_append, List.drop_eq_getElem_cons h, List.sum_cons]
  rfl

theorem OrderInv_remove_line {o : Order} (h : OrderInv o) {n : ℕ}
    {removed : OrderItem} (hn : o.items[n]? = some removed) :
    OrderInv { o with items := o.items.take n ++ o.items.drop (n + 1),
                      total := round2 (o.total - removed.subtotal) } := by
  obtain ⟨hlen, hget⟩ := List.getElem?_eq_some.mp hn
  obtain ⟨hc, ht⟩ := h
  constructor
  · intro x hx
    rcases List.mem_append.mp hx with hx1 | hx1
    · exact hc x (List.mem_of_mem_take hx1)
    · exact hc x (List.mem_of_mem_drop hx1)
  · have hrm : removed ∈ o.items := hget ▸ List.getElem_mem hlen
    have hco : centsQ o.total := centsQ_order_total ⟨hc, ht⟩
    rw [round2_eq_self (centsQ_sub hco (hc removed hrm))]
    show o.total - removed.subtotal
      = ((o.items.take n ++ o.items.drop (n + 1)).map OrderItem.subtotal).sum
    have hlen2 : n < (o.items.map OrderItem.subtotal).length := by
      simpa using hlen
    have hsum := sum_eq_take_getElem_drop (o.items.map OrderItem.subtotal) n
      hlen2
    rw [List.map_append, List.sum_append, List.map_take, List.map_drop]
    have hgetm : (o.items.map OrderItem.subtotal).get ⟨n, hlen2⟩
        = removed.subtotal := by
      rw [List.get_eq_getElem, List.getElem_map, hget]
    rw [ht, hsum, hgetm]
    ring

theorem StoreInv_remove {st : Store} (h : StoreInv st)
    (session_id : Option String) (item_index : Option ℤ) :
    StoreInv (remove_from_order st session_id item_index).2 := by
  unfold remove_from_order
  split
  · exact h
  split
  · exact h
  rename_i sid htr
  split
  · exact h
  rename_i order hlook
  split
  · exact h
  rename_i idx
  split
  · exact h
  split
  · exact h
  split
  · exact h
  rename_i removed hget
  exact StoreInv_set h
    (OrderInv_remove_line (h (sid, order) (lookup_mem hlook)) hget)

theorem StoreInv_clear {st : Store} (h : StoreInv st)
    (session_id : Option String) :
    StoreInv (clear_order st session_id).2 := by
  unfold clear_order
  split
  · split
    · intro p hp
      exact h p ((List.eraseP_sublist _).mem hp)
    · exact h
  · exact h

theorem StoreInv_applyOp (menu : MenuData) {st : Store} (h : StoreInv st)
    (op : Op) : StoreInv (applyOp menu st op) := by
  cases op with
  | add sid iid mids q now => exact StoreInv_add menu h sid iid mids q now
  | remove sid idx => exact StoreInv_remove h sid idx
  | clear sid => exact StoreInv_clear h sid

theorem StoreInv_foldl (menu : MenuData) :
    ∀ (ops : List Op) (st : Store), StoreInv st →
      StoreInv (ops.foldl (applyOp menu) st)
  | [], _, h => h
  | op :: t, st, h =>
    StoreInv_foldl menu t (applyOp menu st op) (StoreInv_applyOp menu h op)

theorem StoreInv_runOps (menu : MenuData) (ops : List Op) :
    StoreInv (runOps menu ops) :=
  StoreInv_foldl menu ops initStore (fun p hp => by simp [initStore] at hp)

/-! ### Line-resolution invariant -/

/-- Whether a modifier identifier resolves to an option of one of the
item's (required or optional) groups. -/
def modifierResolvesIn (item : CatalogItem) (modifier_id : String) : Bool :=
  (item.modifiers.required ++ item.modifiers.optional).any
    (fun g => g.options.any (fun o => o.id == modifier_id))

/-- All stored order lines carry an item identifier that resolves in the
catalog. -/
def ResolveInv (menu : MenuData) (st : Store) : Prop :=
  ∀ p ∈ st.orders, ∀ oi ∈ p.2.items,
    (lookupItem menu oi.item_id).isSome = true

theorem ResolveInv_set {menu : MenuData} {st : Store} {sid : String}
    {v : Order} (h : ResolveInv menu st)
    (hv : ∀ oi ∈ v.items, (lookupItem menu oi.item_id).isSome = true) :
    ResolveInv menu { st with orders := dictSet st.orders sid v } := by
  intro p hp
  rcases mem_dictSet hp with rfl | hp1
  · exact hv
  · exact h p hp1

theorem ResolveInv_get_or_create {menu : MenuData} {st : Store}
    (h : ResolveInv menu st) (session_id : Option String) (now : String) :
    ResolveInv menu (get_or_create_session st session_id now).2 := by
  unfold get_or_create_session
  cases session_id with
  | none =>
    intro p hp
    rcases mem_dictSet hp with rfl | hp1
    · intro oi hoi
      simp at hoi
    · exact h p hp1
  | some sid =>
    by_cases hc : (sid != "" && (st.orders.lookup sid).isSome) = true
    · simpa [hc] using h
    · simp only [Bool.not_eq_true] at hc
      intro p hp
      simp only [hc, Bool.false_eq_true, if_false] at hp
      rcases mem_dictSet hp with rfl | hp1
      · intro oi hoi
        simp at hoi
      · exact h p hp1

theorem ResolveInv_lookup_getD {menu : MenuData} {st : Store}
    (h : ResolveInv menu st) (sid : String) (now : String) :
    ∀ oi ∈ ((st.orders.lookup sid).getD ⟨[], 0, now⟩).items,
      (lookupItem menu oi.item_id).isSome = true := by
  cases hl : st.orders.lookup sid with
  | none =>
    intro oi hoi
    simp at hoi
  | some o => exact h (sid, o) (lookup_mem hl)

theorem ResolveInv_add (menu : MenuData) {st : Store}
    (h : ResolveInv menu st) (session_id : Option String) (item_id : String)
    (modifier_ids : List String) (quantity : ℤ) (now : String) :
    ResolveInv menu (add_to_order menu st session_id item_id modifier_ids
      quantity now).2 := by
  unfold add_to_order
  by_cases h0 : item_id = ""
  · simpa [h0] using h
  · rw [if_neg h0]
    cases hl : lookupItem menu item_id with
    | none => exact h
    | some item =>
      have h1 : ResolveInv menu (get_or_create_session st session_id now).2 :=
        ResolveInv_get_or_create h session_id now
      refine ResolveInv_set h1 ?_
      intro oi hoi
      rcases List.mem_append.mp hoi with hx | hx
      · exact ResolveInv_lookup_getD h1 _ now oi hx
      · rw [List.mem_singleton.mp hx]
        simp [hl]

theorem ResolveInv_remove {menu : MenuData} {st : Store}
    (h : ResolveInv menu st) (session_id : Option String)
    (item_index : Option ℤ) :
    ResolveInv menu (remove_from_order st session_id item_index).2 := by
  unfold remove_from_order
  split
  · exact h
  split
  · exact h
  rename_i sid htr
  split
  · exact h
  rename_i order hlook
  split
  · exact h
  rename_i idx
  split
  · exact h
  split
  · exact h
  split
  · exact h
  rename_i removed hget
  refine ResolveInv_set h ?_
  intro oi hoi
  rcases List.mem_append.mp hoi with hx | hx
  · exact h (sid, order) (lookup_mem hlook) oi (List.mem_of_mem_take hx)
  · exact h (sid, order) (lookup_mem hlook) oi (List.mem_of_mem_drop hx)

theorem ResolveInv_clear {menu : MenuData} {st : Store}
    (h : ResolveInv menu st) (session_id : Option String) :
    ResolveInv menu (clear_order st session_id).2 := by
  unfold clear_order
  split
  · split
    · intro p hp
      exact h p ((List.eraseP_sublist _).mem hp)
    · exact h
  · exact h

theorem ResolveInv_applyOp (menu : MenuData) {st : Store}
    (h : ResolveInv menu st) (op : Op) :
    ResolveInv menu (applyOp menu st op) := by
  cases op with
  | add sid iid mids q now => exact ResolveInv_add menu h sid iid mids q now
  | remove sid idx => exact ResolveInv_remove h sid idx
  | clear sid => exact ResolveInv_clear h sid

theorem ResolveInv_foldl (menu : MenuData) :
    ∀ (ops : List Op) (st : Store), ResolveInv menu st →
      ResolveInv menu (ops.foldl (applyOp menu) st)
  | [], _, h => h
  | op :: t, st, h =>
    ResolveInv_foldl menu t (applyOp menu st op) (ResolveInv_applyOp menu h op)

theorem ResolveInv_runOps (menu : MenuData) (ops : List Op) :
    ResolveInv menu (runOps menu ops) :=
  ResolveInv_foldl menu ops initStore (fun p hp => by simp [initStore] at hp)

/-! ### Concrete catalog and runs used by witnesses -/

/-- A concrete modifier-free item (the spec's Pancakes example). -/
def itemP1 : CatalogItem :=
  ⟨"P1", "Pancakes", "Breakfast", 8, "", true, ⟨[], []⟩⟩

/-- A second concrete modifier-free item. -/
def itemO1 : CatalogItem :=
  ⟨"O1", "Omelet", "Breakfast", 9, "", true, ⟨[], []⟩⟩

/-- A two-item concrete catalog. -/
def menuW : MenuData := ⟨[("P1", itemP1), ("O1", itemO1)]⟩

/-- The spec's example run: add two Pancakes, add one Omelet, remove the
first line. -/
def opsW : List Op :=
  [.add none "P1" [] 2 "t1", .add (some "uuid-0") "O1" [] 1 "t2",
   .remove (some "uuid-0") (some 0)]

/-- The session entry left by `opsW`. -/
def pW : String × Order :=
  ("uuid-0", ⟨[⟨"O1", "Omelet", 9, [], 1, 9, 9⟩], 9, "t1"⟩)

/-! ### Claims C1, C3, C7, C8 -/

/-- Claim C1: after any sequence of `add_to_order` / `remove_from_order`
(and `clear_order`) calls, every session's running total equals
`round(sum of the subtotals of the lines currently in the cart, 2)`,
over exact decimal arithmetic. -/
theorem C1_running_total_invariant (menu : MenuData) (ops : List Op)
    (p : String × Order) (hp : p ∈ (runOps menu ops).orders) :
    p.2.total = round2 ((p.2.items.map OrderItem.subtotal).sum) := by
  obtain ⟨hc, ht⟩ := StoreInv_runOps menu ops p hp
  rw [ht]
  refine (round2_eq_self (centsQ_sum fun x hx => ?_)).symm
  obtain ⟨oi, hoi, rfl⟩ := List.mem_map.mp hx
  exact hc oi hoi

/-- Witness for C1 at the spec's Pancakes/Omelet example run. -/
theorem C1_witness :
    pW ∈ (runOps menuW opsW).orders ∧
      pW.2.total = round2 ((pW.2.items.map OrderItem.subtotal).sum) :=
  ⟨by with_unfolding_all decide,
    C1_running_total_invariant menuW opsW pW (by with_unfolding_all decide)⟩

/-- Counterexample for claim C3 as stated: a cart reachable through the
public operations can hold a line whose applied modifier identifier
(`"bogus"`) resolves to no `ModifierOption` of any group of its item,
because `add_to_order` never validates modifier identifiers. -/
theorem C3_counterexample :
    (("uuid-0", (⟨[⟨"P1", "Pancakes", 8, ["bogus"], 1, 8, 8⟩], 8, "t1"⟩ :
        Order)) ∈ (runOps menuW [.add none "P1" ["bogus"] 1 "t1"]).orders)
    ∧ lookupItem menuW "P1" = some itemP1
    ∧ modifierResolvesIn itemP1 "bogus" = false := by
  with_unfolding_all decide

/-- Claim C3 (amended): in every cart reachable through the public
operations, every order line's *item* identifier resolved in the catalog
when `add_to_order` stored it (the catalog is a fixed parameter that no
ledger operation mutates); applied *modifier* identifiers are stored
unvalidated and need not resolve. -/
theorem C3_item_ids_resolve (menu : MenuData) (ops : List Op)
    (p : String × Order) (hp : p ∈ (runOps menu ops).orders)
    (oi : OrderItem) (hoi : oi ∈ p.2.items) :
    (lookupItem menu oi.item_id).isSome = true :=
  ResolveInv_runOps menu ops p hp oi hoi

/-- Witness for the amended C3. -/
theorem C3_witness :
    pW ∈ (runOps menuW opsW).orders
    ∧ (⟨"O1", "Omelet", 9, [], 1, 9, 9⟩ : OrderItem) ∈ pW.2.items
    ∧ (lookupItem menuW (OrderItem.item_id ⟨"O1", "Omelet", 9, [], 1, 9, 9⟩)).isSome = true :=
  ⟨by with_unfolding_all decide, by with_unfolding_all decide,
    C3_item_ids_resolve menuW opsW pW (by with_unfolding_all decide)
      ⟨"O1", "Omelet", 9, [], 1, 9, 9⟩ (by with_unfolding_all decide)⟩

/-- Counterexample for claim C7 as stated: for the empty item identifier,
which does not resolve in the catalog, `add_to_order` fails with the
*missing-item-id validation* error (HTTP 400), not a not-found error —
though the store is indeed unchanged. -/
theorem C7_counterexample :
    lookupItem menuW "" = none
    ∧ (add_to_order menuW initStore none "" [] 1 "t").2 = initStore
    ∧ isNotFoundErr (add_to_order menuW initStore none "" [] 1 "t").1
        = false := by
  with_unfolding_all decide

/-- Claim C7 (amended): an `add_to_order` call whose item identifier does
not resolve in the catalog fails and leaves the session store completely
unchanged (no session created or touched, the item check preceding
`get_or_create_session`); the error is the not-found error when the item
identifier is non-empty, and the missing-item-id validation error when it
is empty/missing. -/
theorem C7_unknown_item_add (menu : MenuData) (st : Store)
    (session_id : Option String) (item_id : String)
    (modifier_ids : List String) (quantity : ℤ) (now : String)
    (h : lookupItem menu item_id = none) :
    (add_to_order menu st session_id item_id modifier_ids quantity now).2
        = st
    ∧ (item_id ≠ "" →
        (add_to_order menu st session_id item_id modifier_ids quantity
          now).1 = .error (.notFound "Item not found"))
    ∧ (item_id = "" →
        (add_to_order menu st session_id item_id modifier_ids quantity
          now).1 = .error (.validation "Item ID is required")) := by
  unfold add_to_order
  by_cases h0 : item_id = ""
  · simp [h0]
  · simp [h0, h]

/-- Witness for the amended C7 at an unknown item id. -/
theorem C7_witness :
    lookupItem menuW "Z" = none
    ∧ ((add_to_order menuW initStore none "Z" [] 1 "t").2 = initStore
      ∧ ("Z" ≠ "" →
          (add_to_order menuW initStore none "Z" [] 1 "t").1
            = .error (.notFound "Item not found"))
      ∧ ("Z" = "" →
          (add_to_order menuW initStore none "Z" [] 1 "t").1
            = .error (.validation "Item ID is required"))) :=
  ⟨by with_unfolding_all decide,
    C7_unknown_item_add menuW initStore none "Z" [] 1 "t"
      (by with_unfolding_all decide)⟩

/-- Claim C8: for an item identifier absent from the catalog,
`calculate_item_price` returns exactly 0.0 (no error), for every modifier
list. -/
theorem C8_unknown_item_price_zero (menu : MenuData) (item_id : String)
    (modifier_ids : List String) (h : lookupItem menu item_id = none) :
    calculate_item_price menu item_id modifier_ids = 0 := by
  unfold calculate_item_price
  rw [h]

/-- Witness for C8. -/
theorem C8_witness :
    lookupItem menuW "Z" = none
    ∧ calculate_item_price menuW "Z" ["m1", "m2"] = 0 :=
  ⟨by with_unfolding_all decide,
    C8_unknown_item_price_zero menuW "Z" ["m1", "m2"]
      (by with_unfolding_all decide)⟩

/-! ### Claim C9: clear is idempotent -/

theorem lookup_eq_none_of_unseen {l : List (String × Order)} {k : String}
    (h : k ∉ l.map Prod.fst) : l.lookup k = none := by
  induction l with
  | nil => rfl
  | cons p t ih =>
    have hk : ¬(k == p.1) = true := by
      intro hkk
      refine h ?_
      rw [List.map_cons, eq_of_beq hkk]
      exact List.mem_cons_self _ _
    simp only [List.lookup, hk, Bool.false_eq_true, if_false]
    exact ih fun hmem => h (by rw [List.map_cons]; exact List.mem_cons_of_mem _ hmem)

theorem lookup_eraseP_self {l : List (String × Order)} {k : String}
    (hnd : (l.map Prod.fst).Nodup) :
    (l.eraseP (fun p => p.1 == k)).lookup k = none := by
  induction l with
  | nil => rfl
  | cons p t ih =>
    rw [List.map_cons, List.nodup_cons] at hnd
    rw [List.eraseP_cons]
    by_cases hp : p.1 = k
    · have hb : (p.1 == k) = true := by simp [hp]
      rw [hb, cond_true]
      refine lookup_eq_none_of_unseen ?_
      rw [← hp]
      exact hnd.1
    · have hb : (p.1 == k) = false := by simp [hp]
      rw [hb, cond_false]
      have hk : ¬(k == p.1) = true := by
        intro hkk
        exact hp (eq_of_beq hkk).symm
      simp only [List.lookup, hk, Bool.false_eq_true, if_false]
      exact ih hnd.2

/-- Claim C9: `clear_order` always reports success; for a session store
with unique keys (as Python dicts have) and a non-empty session id it
removes the session entirely, clearing twice equals clearing once, and a
subsequent `get_order_summary` on the cleared — or never-existing —
identifier returns the empty-cart view (zero items, total 0.0) rather
than an error. -/
theorem C9_clear_idempotent (st : Store) (sid : String)
    (hnd : (st.orders.map Prod.fst).Nodup) :
    (clear_order st (some sid)).1.success = true
    ∧ (sid ≠ "" → (clear_order st (some sid)).2.orders.lookup sid = none)
    ∧ (clear_order (clear_order st (some sid)).2 (some sid)).2
        = (clear_order st (some sid)).2
    ∧ get_order_summary (clear_order st (some sid)).2 (some sid)
        = emptySummary
    ∧ (st.orders.lookup sid = none →
        get_order_summary st (some sid) = emptySummary) := by
  have hlast : st.orders.lookup sid = none →
      get_order_summary st (some sid) = emptySummary := by
    intro h
    unfold get_order_summary
    by_cases hs : sid = ""
    · simp [hs]
    · simp [hs, h]
  by_cases hc : (sid != "" && (st.orders.lookup sid).isSome) = true
  · have hsid : sid ≠ "" := by
      have := (Bool.and_eq_true _ _).mp hc |>.1
      simpa using this
    have hl1e : (st.orders.eraseP (fun p => p.1 == sid)).lookup sid = none :=
      lookup_eraseP_self hnd
    have hclear : (clear_order st (some sid)).2
        = { st with orders := st.orders.eraseP (fun p => p.1 == sid) } := by
      simp [clear_order, hc]
    refine ⟨by simp [clear_order, hc], fun _ => by rw [hclear]; exact hl1e,
      ?_, ?_, hlast⟩
    · rw [hclear]
      simp [clear_order, hl1e]
    · rw [hclear]
      unfold get_order_summary
      simp [hsid, hl1e]
  · have hst : (clear_order st (some sid)).2 = st := by
      simp only [clear_order, hc, Bool.false_eq_true, if_false]
    refine ⟨by simp [clear_order, hc], ?_, ?_, ?_, hlast⟩
    · intro hsid
      have hns : (st.orders.lookup sid).isSome = false := by
        rcases Bool.and_eq_false_iff.mp (Bool.not_eq_true _ |>.mp hc) with h1 | h1
        · exact absurd (by simpa using h1) (by simpa using hsid)
        · exact h1
      rw [hst]
      exact Option.not_isSome_iff_eq_none.mp (by simp [hns])
    · rw [hst]
      exact hst
    · rw [hst]
      by_cases hs : sid = ""
      · simp [get_order_summary, hs]
      · have hns : st.orders.lookup sid = none := by
          rcases Bool.and_eq_false_iff.mp (Bool.not_eq_true _ |>.mp hc) with h1 | h1
          · exact absurd (by simpa using h1) (by simpa using hs)
          · exact Option.not_isSome_iff_eq_none.mp (by simp [h1])
        exact hlast hns

/-! ### Search engine lemmas -/

/-- The unsorted candidate list built by the loop of `search_items`, in
catalog iteration order. -/
def searchCandidates (ratio : String → String → ℚ) (menu : MenuData)
    (query : String) (threshold : ℚ) : List SearchResult :=
  menu.items.filterMap (fun p => classifyItem ratio query threshold p.1 p.2)

theorem search_items_eq (ratio : String → String → ℚ) (menu : MenuData)
    (query : String) (threshold : ℚ) :
    search_items ratio menu query threshold
      = List.insertionSort scoreGE
          (searchCandidates ratio menu query threshold) := rfl

theorem mem_search_items {ratio : String → String → ℚ} {menu : MenuData}
    {query : String} {threshold : ℚ} {r : SearchResult} :
    r ∈ search_items ratio menu query threshold
      ↔ r ∈ searchCandidates ratio menu query threshold := by
  rw [search_items_eq]
  exact List.mem_insertionSort scoreGE

theorem classifyItem_cases {ratio : String → String → ℚ} {query : String}
    {threshold : ℚ} {item_id : String} {item : CatalogItem}
    {r : SearchResult}
    (h : classifyItem ratio query threshold item_id item = some r) :
    (query.toLower = item.name.toLower
      ∧ r = ⟨item_id, item.name, item.category, item.base_price, "exact", 1⟩)
    ∨ (query.toLower ≠ item.name.toLower
      ∧ (strContains item.name.toLower query.toLower
          || strContains query.toLower item.name.toLower) = true
      ∧ r = ⟨item_id, item.name, item.category, item.base_price, "partial",
          9/10⟩)
    ∨ (query.toLower ≠ item.name.toLower
      ∧ (strContains item.name.toLower query.toLower
          || strContains query.toLower item.name.toLower) = false
      ∧ threshold ≤ similarity_score ratio query item.name
      ∧ r = ⟨item_id, item.name, item.category, item.base_price, "fuzzy",
          similarity_score ratio query item.name⟩) := by
  unfold classifyItem at h
  by_cases h1 : query.toLower = item.name.toLower
  · left
    rw [if_pos h1] at h
    exact ⟨h1, (Option.some_injective _ h).symm⟩
  · rw [if_neg h1] at h
    by_cases h2 : (strContains item.name.toLower query.toLower
        || strContains query.toLower item.name.toLower) = true
    · right; left
      rw [if_pos h2] at h
      exact ⟨h1, h2, (Option.some_injective _ h).symm⟩
    · right; right
      rw [if_neg h2] at h
      by_cases h3 : threshold ≤ similarity_score ratio query item.name
      · rw [if_pos h3] at h
        exact ⟨h1, Bool.not_eq_true _ |>.mp h2, h3,
          (Option.some_injective _ h).symm⟩
      · rw [if_neg h3] at h
        exact absurd h (by simp)

theorem classifyItem_id {ratio : String → String → ℚ} {query : String}
    {threshold : ℚ} {item_id : String} {item : CatalogItem}
    {r : SearchResult}
    (h : classifyItem ratio query threshold item_id item = some r) :
    r.id = item_id := by
  rcases classifyItem_cases h with ⟨_, rfl⟩ | ⟨_, _, rfl⟩ | ⟨_, _, _, rfl⟩ <;>
    rfl

theorem classifyItem_score_le_one {ratio : String → String → ℚ}
    {query : String} {threshold : ℚ} {item_id : String} {item : CatalogItem}
    {r : SearchResult}
    (h : classifyItem ratio query threshold item_id item = some r)
    (hb : ratio query.toLower item.name.toLower ≤ 1) : r.score ≤ 1 := by
  rcases classifyItem_cases h with ⟨_, rfl⟩ | ⟨_, _, rfl⟩ | ⟨_, _, _, rfl⟩
  · exact le_refl 1
  · norm_num
  · exact hb

theorem mem_searchCandidates {ratio : String → String → ℚ} {menu : MenuData}
    {query : String} {threshold : ℚ} {r : SearchResult} :
    r ∈ searchCandidates ratio menu query threshold
      ↔ ∃ p ∈ menu.items,
          classifyItem ratio query threshold p.1 p.2 = some r := by
  unfold searchCandidates
  exact List.mem_filterMap

/-- A similarity function used to instantiate witnesses: 1 on equal
strings, 0 otherwise (satisfying the [0,1]-bounded, 1-means-identical
contract of `difflib.SequenceMatcher.ratio`). -/
def ratioW : String → String → ℚ := fun a b => if a = b then 1 else 0

/-! ### Claim C5: threshold exemption for exact and partial tiers -/

/-- Claim C5: every returned `SearchResult` has score ≥ threshold unless
classified exact or partial; and any item matching the exact or contains
condition yields an exact/partial result in the output regardless of the
threshold. -/
theorem C5_threshold_exemption (ratio : String → String → ℚ)
    (menu : MenuData) (query : String) (threshold : ℚ) :
    (∀ r ∈ search_items ratio menu query threshold,
      r.match_type = "exact" ∨ r.match_type = "partial"
        ∨ threshold ≤ r.score)
    ∧ ∀ p ∈ menu.items,
        (query.toLower = p.2.name.toLower
          ∨ (strContains p.2.name.toLower query.toLower
              || strContains query.toLower p.2.name.toLower) = true) →
        ∃ r ∈ search_items ratio menu query threshold,
          r.id = p.1 ∧ (r.match_type = "exact" ∨ r.match_type = "partial") := by
  constructor
  · intro r hr
    obtain ⟨p, hp, hc⟩ := mem_searchCandidates.mp (mem_search_items.mp hr)
    rcases classifyItem_cases hc with ⟨_, rfl⟩ | ⟨_, _, rfl⟩ | ⟨_, _, h3, rfl⟩
    · exact Or.inl rfl
    · exact Or.inr (Or.inl rfl)
    · exact Or.inr (Or.inr h3)
  · intro p hp hcond
    by_cases h1 : query.toLower = p.2.name.toLower
    · refine ⟨⟨p.1, p.2.name, p.2.category, p.2.base_price, "exact", 1⟩,
        ?_, rfl, Or.inl rfl⟩
      refine mem_search_items.mpr (mem_searchCandidates.mpr ⟨p, hp, ?_⟩)
      simp [classifyItem, h1]
    · have h2 : (strContains p.2.name.toLower query.toLower
          || strContains query.toLower p.2.name.toLower) = true :=
        hcond.resolve_left h1
      refine ⟨⟨p.1, p.2.name, p.2.category, p.2.base_price, "partial", 9/10⟩,
        ?_, rfl, Or.inr rfl⟩
      refine mem_search_items.mpr (mem_searchCandidates.mpr ⟨p, hp, ?_⟩)
      simp [classifyItem, h1, h2]

/-- Witness for C5: with threshold 0.95, the partial result for
`"pan"` (fixed score 0.9 < 0.95) is still returned. -/
theorem C5_witness :
    ((⟨"P1", "Pancakes", "Breakfast", 8, "partial", 9/10⟩ : SearchResult)
        ∈ search_items ratioW menuW "pan" (95/100))
    ∧ ((⟨"P1", "Pancakes", "Breakfast", 8, "partial", 9/10⟩ :
          SearchResult).match_type = "exact"
      ∨ (⟨"P1", "Pancakes", "Breakfast", 8, "partial", 9/10⟩ :
          SearchResult).match_type = "partial"
      ∨ (95/100 : ℚ) ≤ (⟨"P1", "Pancakes", "Breakfast", 8, "partial", 9/10⟩ :
          SearchResult).score) :=
  ⟨by with_unfolding_all decide,
    (C5_threshold_exemption ratioW menuW "pan" (95/100)).1 _
      (by with_unfolding_all decide)⟩

/-! ### Claim C4: one result per item, mutually exclusive tiers -/

theorem candidates_countP_le (ratio : String → String → ℚ) (query : String)
    (threshold : ℚ) (i : String) (l : List (String × CatalogItem)) :
    (l.filterMap (fun p => classifyItem ratio query threshold p.1 p.2)).countP
      (fun r => r.id == i)
    ≤ l.countP (fun p => p.1 == i) := by
  induction l with
  | nil => simp
  | cons a t ih =>
    rw [List.filterMap_cons, List.countP_cons]
    cases hc : classifyItem ratio query threshold a.1 a.2 with
    | none => exact le_trans ih (Nat.le_add_right _ _)
    | some b =>
      rw [List.countP_cons]
      have hid : b.id = a.1 := classifyItem_id hc
      rw [hid]
      exact Nat.add_le_add ih (le_refl _)

theorem countP_keys_le_one {l : List (String × CatalogItem)} {i : String}
    (hnd : (l.map Prod.fst).Nodup) : l.countP (fun p => p.1 == i) ≤ 1 := by
  have h1 : l.countP (fun p => p.1 == i)
      = (l.map Prod.fst).countP (fun k => k == i) := by
    rw [List.countP_map]
    rfl
  have h2 : (l.map Prod.fst).countP (fun k => k == i)
      = (l.map Prod.fst).count i := rfl
  rw [h1, h2]
  exact List.nodup_iff_count_le_one.mp hnd i

theorem key_unique {l : List (String × CatalogItem)}
    (hnd : (l.map Prod.fst).Nodup) {i : String} {x y : CatalogItem}
    (hx : (i, x) ∈ l) (hy : (i, y) ∈ l) : x = y := by
  induction l with
  | nil => simp at hx
  | cons a t ih =>
    rw [List.map_cons, List.nodup_cons] at hnd
    rcases List.mem_cons.mp hx with hxa | hxt
    · rcases List.mem_cons.mp hy with hya | hyt
      · rw [← hxa] at hya
        exact (Prod.mk.injEq i x i y ▸ hya.symm : i = i ∧ x = y).2
      · exfalso
        apply hnd.1
        rw [← hxa]
        exact List.mem_map.mpr ⟨(i, y), hyt, rfl⟩
    · rcases List.mem_cons.mp hy with hya | hyt
      · exfalso
        apply hnd.1
        rw [← hya]
        exact List.mem_map.mpr ⟨(i, x), hxt, rfl⟩
      · exact ih hnd.2 hxt hyt

/-- The three mutually exclusive outcome shapes a catalog item can take
for a query, in the order the `if`/`elif`/`else` chain checks them. -/
def tierDescription (ratio : String → String → ℚ) (query : String)
    (threshold : ℚ) (item : CatalogItem) (r : SearchResult) : Prop :=
  (query.toLower = item.name.toLower
    ∧ r.match_type = "exact" ∧ r.score = 1)
  ∨ (query.toLower ≠ item.name.toLower
    ∧ (strContains item.name.toLower query.toLower
        || strContains query.toLower item.name.toLower) = true
    ∧ r.match_type = "partial" ∧ r.score = 9/10)
  ∨ (query.toLower ≠ item.name.toLower
    ∧ (strContains item.name.toLower query.toLower
        || strContains query.toLower item.name.toLower) = false
    ∧ r.match_type = "fuzzy"
    ∧ r.score = similarity_score ratio query item.name
    ∧ threshold ≤ r.score)

/-- Claim C4: when catalog keys are unique (as in a Python dict), each
catalog item contributes at most one result per query, and any result it
contributes is described by exactly one of the three tiers, evaluated in
order. -/
theorem C4_tiers_mutually_exclusive (ratio : String → String → ℚ)
    (menu : MenuData) (query : String) (threshold : ℚ)
    (i : String) (item : CatalogItem) (hmem : (i, item) ∈ menu.items)
    (hnd : (menu.items.map Prod.fst).Nodup) :
    (search_items ratio menu query threshold).countP (fun r => r.id == i) ≤ 1
    ∧ ∀ r ∈ search_items ratio menu query threshold, r.id = i →
        tierDescription ratio query threshold item r := by
  constructor
  · have hperm : List.Perm (search_items ratio menu query threshold)
        (searchCandidates ratio menu query threshold) := by
      rw [search_items_eq]
      exact List.perm_insertionSort _ _
    rw [hperm.countP_eq]
    exact le_trans (candidates_countP_le ratio query threshold i menu.items)
      (countP_keys_le_one hnd)
  · intro r hr hri
    obtain ⟨p, hp, hc⟩ := mem_searchCandidates.mp (mem_search_items.mp hr)
    obtain ⟨pid, pit⟩ := p
    have hpid : pid = i := by
      have h0 := classifyItem_id hc
      rw [hri] at h0
      exact h0.symm
    subst hpid
    have hitem : pit = item := key_unique hnd hp hmem
    subst hitem
    rcases classifyItem_cases hc with ⟨h1, rfl⟩ | ⟨h1, h2, rfl⟩
      | ⟨h1, h2, h3, rfl⟩
    · exact Or.inl ⟨h1, rfl, rfl⟩
    · exact Or.inr (Or.inl ⟨h1, h2, rfl, rfl⟩)
    · exact Or.inr (Or.inr ⟨h1, h2, rfl, rfl, h3⟩)

/-- Witness for C4 at an exact-match query. -/
theorem C4_witness :
    (("P1", itemP1) ∈ menuW.items)
    ∧ (menuW.items.map Prod.fst).Nodup
    ∧ ((search_items ratioW menuW "Pancakes" (6/10)).countP
        (fun r => r.id == "P1") ≤ 1
      ∧ ∀ r ∈ search_items ratioW menuW "Pancakes" (6/10), r.id = "P1" →
          tierDescription ratioW "Pancakes" (6/10) itemP1 r) :=
  ⟨by with_unfolding_all decide, by with_unfolding_all decide,
    C4_tiers_mutually_exclusive ratioW menuW "Pancakes" (6/10) "P1" itemP1
      (by with_unfolding_all decide) (by with_unfolding_all decide)⟩

/-! ### Claim C6: exact-name query ranks first; sort is stable -/

theorem filter_score_orderedInsert (v : ℚ) (a : SearchResult)
    (l : List SearchResult) :
    (List.orderedInsert scoreGE a l).filter (fun r => decide (r.score = v))
      = if a.score = v
        then a :: l.filter (fun r => decide (r.score = v))
        else l.filter (fun r => decide (r.score = v)) := by
  induction l with
  | nil =>
    simp only [List.orderedInsert]
    by_cases hav : a.score = v
    · simp [List.filter, hav]
    · simp [List.filter, hav]
  | cons b t ih =>
    simp only [List.orderedInsert]
    by_cases hab : scoreGE a b
    · rw [if_pos hab]
      by_cases hav : a.score = v <;> simp [List.filter_cons, hav]
    · rw [if_neg hab]
      have hab1 : ¬ b.score ≤ a.score := hab
      have hblt : a.score < b.score := lt_of_not_le hab1
      rw [List.filter_cons, List.filter_cons, ih]
      by_cases hav : a.score = v
      · have hbv : ¬(b.score = v) := by
          rw [← hav]
          exact ne_of_gt hblt
        simp [hav, hbv]
      · simp [hav]

theorem filter_score_insertionSort (v : ℚ) (l : List SearchResult) :
    (List.insertionSort scoreGE l).filter (fun r => decide (r.score = v))
      = l.filter (fun r => decide (r.score = v)) := by
  induction l with
  | nil => rfl
  | cons a t ih =>
    simp only [List.insertionSort]
    rw [filter_score_orderedInsert, ih, List.filter_cons]
    by_cases hav : a.score = v <;> simp [hav]

theorem head_eq_of_unique_max {l : List SearchResult} {x : SearchResult}
    (hs : List.Sorted scoreGE l) (hx : x ∈ l)
    (hb : ∀ y ∈ l, y.score ≤ 1) (hx1 : x.score = 1)
    (hu : ∀ y ∈ l, y.score = 1 → y = x) : l.head? = some x := by
  cases l with
  | nil => simp at hx
  | cons a t =>
    rw [List.head?_cons]
    rcases List.mem_cons.mp hx with rfl | hxt
    · rfl
    · have hsc := List.sorted_cons.mp hs
      have h1 : x.score ≤ a.score := hsc.1 x hxt
      have h2 : a.score = 1 :=
        le_antisymm (hb a (List.mem_cons_self a t)) (hx1 ▸ h1)
      rw [hu a (List.mem_cons_self a t) h2]

/-- Claim C6: if an item's normalized name is unique in the catalog and
the normalized query equals it, that item is the first result, classified
exact with score 1.0; moreover the whole output is sorted descending by
score, and results with equal scores keep the catalog iteration order of
the unsorted candidate list (stable ties).  The similarity function is
assumed bounded by 1 and to reach 1 only on identical strings, as
`difflib.SequenceMatcher.ratio` is. -/
theorem C6_exact_name_first (ratio : String → String → ℚ) (menu : MenuData)
    (query : String) (threshold : ℚ) (i : String) (item : CatalogItem)
    (hmem : (i, item) ∈ menu.items)
    (hq : query.toLower = item.name.toLower)
    (huniq : ∀ p ∈ menu.items, p.2.name.toLower = item.name.toLower →
      p = (i, item))
    (hratio : ∀ p ∈ menu.items, ratio query.toLower p.2.name.toLower ≤ 1
      ∧ (ratio query.toLower p.2.name.toLower = 1 →
          query.toLower = p.2.name.toLower)) :
    (search_items ratio menu query threshold).head?
      = some ⟨i, item.name, item.category, item.base_price, "exact", 1⟩
    ∧ List.Sorted scoreGE (search_items ratio menu query threshold)
    ∧ ∀ v : ℚ,
        (search_items ratio menu query threshold).filter
            (fun r => decide (r.score = v))
          = (searchCandidates ratio menu query threshold).filter
            (fun r => decide (r.score = v)) := by
  have hsorted : List.Sorted scoreGE
      (search_items ratio menu query threshold) := by
    rw [search_items_eq]
    exact List.sorted_insertionSort scoreGE _
  refine ⟨?_, hsorted, ?_⟩
  · apply head_eq_of_unique_max hsorted
    · refine mem_search_items.mpr (mem_searchCandidates.mpr
        ⟨(i, item), hmem, ?_⟩)
      simp [classifyItem, hq]
    · intro y hy
      obtain ⟨p, hp, hc⟩ := mem_searchCandidates.mp (mem_search_items.mp hy)
      exact classifyItem_score_le_one hc (hratio p hp).1
    · rfl
    · intro y hy hy1
      obtain ⟨p, hp, hc⟩ := mem_searchCandidates.mp (mem_search_items.mp hy)
      rcases classifyItem_cases hc with ⟨h1, rfl⟩ | ⟨h1, h2, rfl⟩
        | ⟨h1, h2, h3, rfl⟩
      · have hpi : p = (i, item) := huniq p hp (by rw [← h1, hq])
        rw [hpi]
      · exact absurd hy1 (by norm_num)
      · have hsim : ratio query.toLower p.2.name.toLower = 1 := hy1
        exact absurd ((hratio p hp).2 hsim) h1
  · intro v
    rw [search_items_eq]
    exact filter_score_insertionSort v _

/-- Witness for C6: the uppercase query `"PANCAKES"` returns the
Pancakes item first, exact with score 1. -/
theorem C6_witness :
    (("P1", itemP1) ∈ menuW.items)
    ∧ "PANCAKES".toLower = itemP1.name.toLower
    ∧ (∀ p ∈ menuW.items, p.2.name.toLower = itemP1.name.toLower →
        p = ("P1", itemP1))
    ∧ (∀ p ∈ menuW.items, ratioW "PANCAKES".toLower p.2.name.toLower ≤ 1
        ∧ (ratioW "PANCAKES".toLower p.2.name.toLower = 1 →
            "PANCAKES".toLower = p.2.name.toLower))
    ∧ ((search_items ratioW menuW "PANCAKES" (6/10)).head?
        = some ⟨"P1", itemP1.name, itemP1.category, itemP1.base_price,
            "exact", 1⟩
      ∧ List.Sorted scoreGE (search_items ratioW menuW "PANCAKES" (6/10))
      ∧ ∀ v : ℚ,
          (search_items ratioW menuW "PANCAKES" (6/10)).filter
              (fun r => decide (r.score = v))
            = (searchCandidates ratioW menuW "PANCAKES" (6/10)).filter
              (fun r => decide (r.score = v))) :=
  ⟨by with_unfolding_all decide, by with_unfolding_all decide,
    by with_unfolding_all decide, by with_unfolding_all decide,
    C6_exact_name_first ratioW menuW "PANCAKES" (6/10) "P1" itemP1
      (by with_unfolding_all decide) (by with_unfolding_all decide)
      (by with_unfolding_all decide) (by with_unfolding_all decide)⟩

/-! ### Claim C10: search ignores availability -/

/-- Rewrite every item's availability flag (keeping everything else). -/
def setAvailability (f : String → Bool) (menu : MenuData) : MenuData :=
  ⟨menu.items.map (fun p => (p.1, { p.2 with available := f p.1 }))⟩

/-- Claim C10: `search_items` never consults the `available` flag — its
output is invariant under arbitrarily rewriting every item's
availability, so an unavailable item is matched, scored and returned
exactly as an available one with the same name. -/
theorem C10_search_ignores_availability (ratio : String → String → ℚ)
    (f : String → Bool) (menu : MenuData) (query : String) (threshold : ℚ) :
    search_items ratio (setAvailability f menu) query threshold
      = search_items ratio menu query threshold := by
  have h : searchCandidates ratio (setAvailability f menu) query threshold
      = searchCandidates ratio menu query threshold := by
    unfold searchCandidates setAvailability
    rw [List.filterMap_map]
    rfl
  rw [search_items_eq, search_items_eq, h]

/-! ### Claim C2: modifier pricing scan -/

/-- The price delta a single group contributes for one requested modifier
identifier: the first option in the group whose id matches (the inner
`break` in `calculate_item_price`), else nothing. -/
def groupDelta (g : ModifierGroup) (modifier_id : String) : ℚ :=
  match g.options.find? (fun o => o.id == modifier_id) with
  | some o => o.price
  | none => 0

/-- Modelled from the spec: the spec's description of the scan — for each
requested modifier identifier, scan required then optional groups and, on
the *first* option anywhere whose identifier matches, add its price and
stop scanning further groups for that identifier.  Stated only for
comparison against the source's `calculate_item_price`. -/
def calculate_item_price_spec (menu : MenuData) (item_id : String)
    (modifier_ids : List String) : ℚ :=
  match lookupItem menu item_id with
  | none => 0
  | some item =>
    let allOptions := (item.modifiers.required ++ item.modifiers.optional).foldr
      (fun g acc => g.options ++ acc) []
    let total := modifier_ids.foldl (fun total modifier_id =>
      match allOptions.find? (fun o => o.id == modifier_id) with
      | some o => total + o.price
      | none => total) item.base_price
    round2 total

/-- An item whose modifier id `"m"` appears in a required and in an
optional group. -/
def itemDup : CatalogItem :=
  ⟨"X", "Thing", "Cat", 1, "", true,
    ⟨[⟨"G1", [⟨"m", "opt1", 1/2⟩]⟩], [⟨"G2", [⟨"m", "opt2", 1/4⟩]⟩]⟩⟩

/-- One-item catalog containing `itemDup`. -/
def menuDup : MenuData := ⟨[("X", itemDup)]⟩

/-- Counterexample for claim C2 as stated: with modifier id `"m"` present
in both a required and an optional group, the code's `break` leaves only
the inner option loop, so both groups contribute: the price is
1 + 0.50 + 0.25 = 1.75, not the 1.50 the first-match-wins scan of the
spec would produce — the identifier *is* summed twice. -/
theorem C2_counterexample :
    calculate_item_price menuDup "X" ["m"] = 7/4
    ∧ calculate_item_price_spec menuDup "X" ["m"] = 3/2
    ∧ calculate_item_price menuDup "X" ["m"]
        ≠ calculate_item_price_spec menuDup "X" ["m"] := by
  with_unfolding_all decide

theorem inner_foldl_eq (modifier_id : String) (groups : List ModifierGroup)
    (t0 : ℚ) :
    groups.foldl (fun total group =>
      match group.options.find? (fun o => o.id == modifier_id) with
      | some o => total + o.price
      | none => total) t0
    = t0 + (groups.map (fun g => groupDelta g modifier_id)).sum := by
  induction groups generalizing t0 with
  | nil => simp
  | cons g gs ih =>
    rw [List.foldl_cons, ih, List.map_cons, List.sum_cons]
    cases hfind : g.options.find? (fun o => o.id == modifier_id) with
    | none =>
      simp [groupDelta, hfind]
    | some o =>
      simp only [groupDelta, hfind]
      ring

theorem price_foldl_eq (groups : List ModifierGroup) (mids : List String)
    (t0 : ℚ) :
    mids.foldl (fun total modifier_id =>
      groups.foldl (fun total group =>
        match group.options.find? (fun o => o.id == modifier_id) with
        | some o => total + o.price
        | none => total) total) t0
    = t0 + (mids.map (fun mid =>
        (groups.map (fun g => groupDelta g mid)).sum)).sum := by
  induction mids generalizing t0 with
  | nil => simp
  | cons m ms ih =>
    rw [List.foldl_cons, ih, inner_foldl_eq, List.map_cons, List.sum_cons,
      add_assoc]

/-- Claim C2 (amended): `calculate_item_price` starts from the base price
and, for each requested modifier identifier and *each* group (required
then optional), adds the price of the first option in that group whose
identifier matches; the `break` prevents double-counting within one
group, but an identifier present in several groups is added once per
group.  The result is `round(-, 2)` of that sum. -/
theorem C2_per_group_first_match (menu : MenuData) (item_id : String)
    (modifier_ids : List String) (item : CatalogItem)
    (h : lookupItem menu item_id = some item) :
    calculate_item_price menu item_id modifier_ids
      = round2 (item.base_price
        + (modifier_ids.map (fun mid =>
            ((item.modifiers.required ++ item.modifiers.optional).map
              (fun g => groupDelta g mid)).sum)).sum) := by
  unfold calculate_item_price
  rw [h]
  exact congrArg round2 (price_foldl_eq
    (item.modifiers.required ++ item.modifiers.optional) modifier_ids
    item.base_price)

/-- Witness for the amended C2 at the duplicate-modifier catalog. -/
theorem C2_witness :
    lookupItem menuDup "X" = some itemDup
    ∧ calculate_item_price menuDup "X" ["m"]
        = round2 (itemDup.base_price
          + ((["m"].map (fun mid =>
              ((itemDup.modifiers.required ++ itemDup.modifiers.optional).map
                (fun g => groupDelta g mid)).sum))).sum) :=
  ⟨by with_unfolding_all decide,
    C2_per_group_first_match menuDup "X" ["m"] itemDup
      (by with_unfolding_all decide)⟩

/-- A concrete store with one session, for the C9 witness. -/
def stW : Store := ⟨[("s1", ⟨[], 5, "t"⟩)], 1⟩

/-- Witness for C9. -/
theorem C9_witness :
    (stW.orders.map Prod.fst).Nodup
    ∧ ((clear_order stW (some "s1")).1.success = true
      ∧ ("s1" ≠ "" →
          (clear_order stW (some "s1")).2.orders.lookup "s1" = none)
      ∧ (clear_order (clear_order stW (some "s1")).2 (some "s1")).2
          = (clear_order stW (some "s1")).2
      ∧ get_order_summary (clear_order stW (some "s1")).2 (some "s1")
          = emptySummary
      ∧ (stW.orders.lookup "s1" = none →
          get_order_summary stW (some "s1") = emptySummary)) :=
  ⟨by with_unfolding_all decide,
    C9_clear_idempotent stW "s1" (by with_unfolding_all decide)⟩

end MenuAgent
